import Mathlib

/-!
Verification of the phase-svd-opendss label and profile factories.

The definitions below are a shallow embedding of the algorithmic core of the
repository: the load-to-transformer topology resolution and transformer-level
label aggregation of `label_factory.py`, and the profile upsampling and
normalization of `profile_factory.py`.  Machine floats are modelled with
rationals; the OpenDSS engine is modelled as the raw connectivity and
loadshape data it supplies.
-/

set_option maxHeartbeats 1000000

namespace PhaseSvd

/-- A circuit line: `bus1` is the upstream endpoint, `bus2` the downstream one
(`_make_line_buses` collects these two parallel arrays in line enumeration
order; we keep the records zipped). -/
structure Line where
  name : String
  bus1 : String
  bus2 : String
deriving DecidableEq, Repr

/-- A transformer together with the bus of its active winding
(`_make_transformer_buses`). -/
structure Transformer where
  name : String
  winding_bus : String
deriving DecidableEq, Repr

/-- Resolution failures of `label_factory.py`.  In the Python source these are
the uncaught `ValueError` of `list.index` (for the two lookups) and the
uncaught `IndexError`/`ValueError` of `bus.split(".")[1]`/`int`; the attached
string is the searched-for identifier. -/
inductive LabelError where
  | unresolvedLine (bus : String)
  | unresolvedTransformer (bus : String)
  | malformedBusIdentifier (bus : String)
deriving DecidableEq, Repr

/-- `line_bus2s.index(load_bus)` followed by reading the matching line:
first occurrence in array order wins, `none` when no bus matches. -/
def find_line_by_bus2 (lines : List Line) (bus : String) : Option Line :=
  lines.find? (fun l => l.bus2 == bus)

/-- `transformer_buses.index(line_bus1)` followed by reading the matching
transformer: first occurrence in array order wins. -/
def find_transformer_by_bus (transformers : List Transformer) (bus : String) :
    Option Transformer :=
  transformers.find? (fun t => t.winding_bus == bus)

/-- The body of the loop of `_make_transformer_values` for a single load bus:
find the line whose `bus2` is the load's bus, then the transformer whose
winding bus is that line's `bus1`, and return the transformer's name.  A
failed `list.index` call raises, modelled as `Except.error`. -/
def resolveTransformerName (lines : List Line) (transformers : List Transformer)
    (load_bus : String) : Except LabelError String :=
  match find_line_by_bus2 lines load_bus with
  | none => .error (.unresolvedLine load_bus)
  | some line =>
    match find_transformer_by_bus transformers line.bus1 with
    | none => .error (.unresolvedTransformer line.bus1)
    | some transformer => .ok transformer.name

/-- `_make_transformer_values`: resolve every load bus in order; the first
raised lookup error aborts the whole loop, so no partial list is produced. -/
def make_transformer_values (lines : List Line) (transformers : List Transformer) :
    List String → Except LabelError (List String)
  | [] => .ok []
  | load_bus :: rest =>
    match resolveTransformerName lines transformers load_bus with
    | .error e => .error e
    | .ok name =>
      match make_transformer_values lines transformers rest with
      | .error e => .error e
      | .ok names => .ok (name :: names)

/-- Python's `bus.split(".")` on the character list of the identifier: the
maximal `.`-free segments, with empty segments kept (so the result always has
one more segment than there are dots). -/
def splitDots : List Char → List (List Char)
  | [] => [[]]
  | c :: cs =>
    let rest := splitDots cs
    if c = '.' then [] :: rest
    else (c :: rest.headD []) :: rest.tail

/-- The value of one decimal digit character, `none` otherwise. -/
def charDigit? (c : Char) : Option ℕ :=
  if c.isDigit then some (c.toNat - '0'.toNat) else none

/-- The value of a nonempty all-digit character list, `none` otherwise
(Python's `int` on an unsigned literal). -/
def digitsVal? (cs : List Char) : Option ℕ :=
  if cs = [] then none
  else
    cs.foldl
      (fun acc c =>
        match acc, charDigit? c with
        | some n, some d => some (10 * n + d)
        | _, _ => none)
      (some 0)

/-- Python's `int` applied to a string segment: an optional sign followed by
at least one decimal digit, `none` (a `ValueError`) otherwise. -/
def parseInt? : List Char → Option ℤ
  | '-' :: rest => (digitsVal? rest).map (fun n => -(n : ℤ))
  | '+' :: rest => (digitsVal? rest).map (fun n => (n : ℤ))
  | cs => (digitsVal? cs).map (fun n => (n : ℤ))

/-- `int(bus.split(sep=".")[1]) - 1` from `make_load_labels` (and the same
expression in `make_metadata`): the phase is the integer segment after the
first `.`, shifted to start at 0.  A missing segment (`IndexError`) or a
non-integer segment (`ValueError`) aborts, modelled as `Except.error`. -/
def phase_of (bus : String) : Except LabelError Int :=
  match (splitDots bus.data).get? 1 with
  | none => .error (.malformedBusIdentifier bus)
  | some seg =>
    match parseInt? seg with
    | none => .error (.malformedBusIdentifier bus)
    | some p => .ok (p - 1)

/-! ### Helper lemmas on first-match lookup -/

/-- `find?` returns the match at the earliest index, regardless of anything
that comes later in the list. -/
theorem find?_eq_of_first {α : Type} (p : α → Bool) :
    ∀ (xs : List α) (i : ℕ) (hi : i < xs.length),
      p (xs.get ⟨i, hi⟩) = true →
      (∀ j (hj : j < i), p (xs.get ⟨j, Nat.lt_trans hj hi⟩) = false) →
      xs.find? p = some (xs.get ⟨i, hi⟩) := by
  intro xs
  induction xs with
  | nil => intro i hi; exact absurd hi (Nat.not_lt_zero i)
  | cons x xs ih =>
    intro i hi hp hfirst
    cases i with
    | zero => simp [List.find?_cons_of_pos _ (by simpa using hp)]
    | succ n =>
      have hx : p x = false := hfirst 0 (Nat.succ_pos n)
      have hn : n < xs.length := Nat.lt_of_succ_lt_succ hi
      have hrest := ih n hn hp (fun j hj => hfirst (j + 1) (Nat.succ_lt_succ hj))
      have hget : (x :: xs).get ⟨n + 1, hi⟩ = xs.get ⟨n, hn⟩ := rfl
      rw [hget, List.find?_cons_of_neg _ (by simp [hx]), hrest]

/-- When exactly one element of the list satisfies the predicate, `find?`
returns it. -/
theorem find?_eq_of_unique {α : Type} (p : α → Bool) (xs : List α) (a : α)
    (ha : a ∈ xs) (hpa : p a = true)
    (huniq : ∀ b ∈ xs, p b = true → b = a) :
    xs.find? p = some a := by
  induction xs with
  | nil => cases ha
  | cons x xs ih =>
    by_cases hx : p x = true
    · have hxa : x = a := huniq x (List.mem_cons_self x xs) hx
      rw [List.find?_cons_of_pos _ hx, hxa]
    · have hxf : p x = false := by simpa using hx
      have hax : a ∈ xs := by
        rcases List.mem_cons.mp ha with h | h
        · exact absurd (h ▸ hpa) (by simp [hxf])
        · exact h
      have := ih hax (fun b hb hpb => huniq b (List.mem_cons_of_mem x hb) hpb)
      rw [List.find?_cons_of_neg _ hx, this]

/-- When the matching line and transformer are unique, resolution returns that
transformer's name. -/
theorem resolve_of_unique (lines : List Line) (transformers : List Transformer)
    (load_bus : String) (l : Line) (t : Transformer)
    (hl : l ∈ lines) (hlb : l.bus2 = load_bus)
    (hluniq : ∀ l2 ∈ lines, l2.bus2 = load_bus → l2 = l)
    (ht : t ∈ transformers) (htb : t.winding_bus = l.bus1)
    (htuniq : ∀ t2 ∈ transformers, t2.winding_bus = l.bus1 → t2 = t) :
    resolveTransformerName lines transformers load_bus = .ok t.name := by
  have h1 : find_line_by_bus2 lines load_bus = some l :=
    find?_eq_of_unique _ lines l hl (by simp [hlb])
      (fun b hb hpb => hluniq b hb (by simpa using hpb))
  have h2 : find_transformer_by_bus transformers l.bus1 = some t :=
    find?_eq_of_unique _ transformers t ht (by simp [htb])
      (fun b hb hpb => htuniq b hb (by simpa using hpb))
  simp [resolveTransformerName, h1, h2]

/-- C1: a load whose bus matches exactly one line's `bus2`, where that line's
`bus1` matches exactly one transformer's winding bus, resolves to that
transformer's name, and the result is unchanged when the line and transformer
arrays are arbitrarily permuted (the uniqueness of the bus keys ruling out
duplicate-key ties). -/
theorem resolve_unique_and_permutation_invariant
    (lines lines2 : List Line) (transformers transformers2 : List Transformer)
    (load_bus : String) (l : Line) (t : Transformer)
    (hperm : List.Perm lines2 lines) (hperm2 : List.Perm transformers2 transformers)
    (hl : l ∈ lines) (hlb : l.bus2 = load_bus)
    (hluniq : ∀ l2 ∈ lines, l2.bus2 = load_bus → l2 = l)
    (ht : t ∈ transformers) (htb : t.winding_bus = l.bus1)
    (htuniq : ∀ t2 ∈ transformers, t2.winding_bus = l.bus1 → t2 = t) :
    resolveTransformerName lines transformers load_bus = .ok t.name ∧
    resolveTransformerName lines2 transformers2 load_bus = .ok t.name := by
  refine ⟨resolve_of_unique lines transformers load_bus l t hl hlb hluniq ht htb htuniq, ?_⟩
  exact resolve_of_unique lines2 transformers2 load_bus l t
    (hperm.mem_iff.mpr hl) hlb
    (fun l2 h2 => hluniq l2 (hperm.mem_iff.mp h2))
    (hperm2.mem_iff.mpr ht) htb
    (fun t2 h2 => htuniq t2 (hperm2.mem_iff.mp h2))

/-- C1 witness: a concrete two-line circuit, resolved identically before and
after swapping the order of the line array. -/
theorem resolve_unique_and_permutation_invariant_witness :
    resolveTransformerName
        [⟨"lnB", "x1", "x2"⟩, ⟨"lnA", "busT", "busL"⟩] [⟨"T1", "busT"⟩] "busL" =
      .ok "T1" ∧
    resolveTransformerName
        [⟨"lnA", "busT", "busL"⟩, ⟨"lnB", "x1", "x2"⟩] [⟨"T1", "busT"⟩] "busL" =
      .ok "T1" :=
  resolve_unique_and_permutation_invariant
    [⟨"lnB", "x1", "x2"⟩, ⟨"lnA", "busT", "busL"⟩]
    [⟨"lnA", "busT", "busL"⟩, ⟨"lnB", "x1", "x2"⟩]
    [⟨"T1", "busT"⟩] [⟨"T1", "busT"⟩] "busL"
    ⟨"lnA", "busT", "busL"⟩ ⟨"T1", "busT"⟩
    (List.Perm.swap _ _ _) (List.Perm.refl _)
    (by decide) (by decide) (by decide) (by decide) (by decide) (by decide)

/-- C8: a load bus matched by no line makes the whole batch fail with the
unresolved-line error carrying that bus, provided every earlier load resolved;
no partial list of transformer names is produced. -/
theorem make_transformer_values_unresolved_aborts
    (lines : List Line) (transformers : List Transformer)
    (pre : List String) (bad : String) (post : List String)
    (hpre : ∀ b ∈ pre, ∃ n, resolveTransformerName lines transformers b = .ok n)
    (hbad : ∀ l ∈ lines, l.bus2 ≠ bad) :
    make_transformer_values lines transformers (pre ++ bad :: post) =
      .error (.unresolvedLine bad) := by
  have hfind : find_line_by_bus2 lines bad = none := by
    rw [find_line_by_bus2, List.find?_eq_none]
    intro l hl
    simpa using hbad l hl
  have hres : resolveTransformerName lines transformers bad =
      .error (.unresolvedLine bad) := by
    simp [resolveTransformerName, hfind]
  induction pre with
  | nil => simp [make_transformer_values, hres]
  | cons b pre ih =>
    obtain ⟨n, hn⟩ := hpre b (List.mem_cons_self b pre)
    have hrest := ih (fun b2 h2 => hpre b2 (List.mem_cons_of_mem b h2))
    simp [make_transformer_values, hn, hrest]

/-- C8 witness: with one resolvable load before it, the unmatched bus
`nobus` aborts the batch with the unresolved-line error naming it. -/
theorem make_transformer_values_unresolved_aborts_witness :
    make_transformer_values
        [⟨"ln1", "busT", "okbus"⟩] [⟨"T1", "busT"⟩] (["okbus"] ++ "nobus" :: ["x"]) =
      .error (.unresolvedLine "nobus") :=
  make_transformer_values_unresolved_aborts
    [⟨"ln1", "busT", "okbus"⟩] [⟨"T1", "busT"⟩] ["okbus"] "nobus" ["x"]
    (fun b hb => by
      rw [List.mem_singleton] at hb
      subst hb
      exact ⟨"T1", rfl⟩)
    (by decide)

/-- C9: when a bus key occurs several times among the line `bus2` entries or
the transformer winding buses, the lookup returns the entity at the first
occurrence in original array order, and the duplicate is not rejected. -/
theorem duplicate_bus_first_occurrence_wins :
    (∀ (lines : List Line) (b : String) (i : ℕ) (hi : i < lines.length),
      (lines.get ⟨i, hi⟩).bus2 = b →
      (∀ j (hj : j < i), (lines.get ⟨j, Nat.lt_trans hj hi⟩).bus2 ≠ b) →
      find_line_by_bus2 lines b = some (lines.get ⟨i, hi⟩)) ∧
    (∀ (transformers : List Transformer) (b : String) (i : ℕ)
        (hi : i < transformers.length),
      (transformers.get ⟨i, hi⟩).winding_bus = b →
      (∀ j (hj : j < i), (transformers.get ⟨j, Nat.lt_trans hj hi⟩).winding_bus ≠ b) →
      find_transformer_by_bus transformers b = some (transformers.get ⟨i, hi⟩)) := by
  constructor
  · intro lines b i hi hmatch hfirst
    exact find?_eq_of_first _ lines i hi (by simpa using hmatch)
      (fun j hj => by simpa using hfirst j hj)
  · intro transformers b i hi hmatch hfirst
    exact find?_eq_of_first _ transformers i hi (by simpa using hmatch)
      (fun j hj => by simpa using hfirst j hj)

/-- C9 witness: with two lines and two transformers sharing a bus key, the
lookups return the entities at index 0. -/
theorem duplicate_bus_first_occurrence_wins_witness :
    find_line_by_bus2 [⟨"ln1", "a1", "b"⟩, ⟨"ln2", "a2", "b"⟩] "b" =
      some ⟨"ln1", "a1", "b"⟩ ∧
    find_transformer_by_bus [⟨"T1", "w"⟩, ⟨"T2", "w"⟩] "w" = some ⟨"T1", "w"⟩ :=
  ⟨duplicate_bus_first_occurrence_wins.1 [⟨"ln1", "a1", "b"⟩, ⟨"ln2", "a2", "b"⟩]
      "b" 0 (by decide) (by decide) (fun j hj => absurd hj (Nat.not_lt_zero j)),
    duplicate_bus_first_occurrence_wins.2 [⟨"T1", "w"⟩, ⟨"T2", "w"⟩]
      "w" 0 (by decide) (by decide) (fun j hj => absurd hj (Nat.not_lt_zero j))⟩

/-- C6: the phase of bus `b42.2` is 1, of `b42.1` is 0, and a bus identifier
with no `.`-separated phase segment fails with the malformed-bus error. -/
theorem phase_of_examples :
    phase_of "b42.2" = .ok 1 ∧ phase_of "b42.1" = .ok 0 ∧
    phase_of "b42" = .error (.malformedBusIdentifier "b42") :=
  ⟨rfl, rfl, rfl⟩

/-! ### Transformer label aggregation (`make_xfmr_labels`) -/

/-- One row of the load label frame built by `make_load_labels`. -/
structure LoadLabel where
  load_name : String
  phase : Int
  loadshape : String
  transformer_name : String
deriving DecidableEq, Repr, Inhabited

/-- One row of the transformer label frame built by `make_xfmr_labels`; the
index and name lists are already `;`-joined as in the source. -/
structure TransformerLabel where
  load_indices : String
  load_names : String
  phase : Int
  transformer_name : String
deriving DecidableEq, Repr

/-- `np.unique`: the distinct values of the array, in ascending sorted
order. -/
def uniqueSorted (xs : List String) : List String :=
  List.insertionSort (fun a b => a ≤ b) xs.dedup

/-- `np.where(load_xfmr_names == xfmr_name)[0]`: the indices whose entry
equals the name, in ascending original order. -/
def whereEq (xs : List String) (name : String) : List ℕ :=
  (List.range xs.length).filter (fun i => xs.getD i "" == name)

/-- The per-transformer groups of `make_xfmr_labels`: for each distinct
transformer name (sorted by `np.unique`), the indices of the loads connected
to it. -/
def xfmr_groups (labels : List LoadLabel) : List (String × List ℕ) :=
  (uniqueSorted (labels.map (fun lb => lb.transformer_name))).map
    (fun name => (name, whereEq (labels.map (fun lb => lb.transformer_name)) name))

/-- `make_xfmr_labels`: one row per distinct transformer name with the
`;`-joined load indices and load names of its group; the phase is read from
the group's first load. -/
def make_xfmr_labels (labels : List LoadLabel) : List TransformerLabel :=
  (xfmr_groups labels).map
    (fun g =>
      { load_indices := String.intercalate ";" (g.2.map (fun i => toString i))
        load_names :=
          String.intercalate ";" (g.2.map (fun i => (labels.getD i default).load_name))
        phase := (labels.getD (g.2.headD 0) default).phase
        transformer_name := g.1 })

/-- Membership in a `np.where` index group. -/
theorem mem_whereEq_iff (xs : List String) (name : String) (i : ℕ) :
    i ∈ whereEq xs name ↔ i < xs.length ∧ xs.getD i "" = name := by
  simp [whereEq, List.mem_filter, List.mem_range]

/-- The index groups are strictly ascending. -/
theorem whereEq_pairwise_lt (xs : List String) (name : String) :
    (whereEq xs name).Pairwise (· < ·) :=
  (List.pairwise_lt_range xs.length).filter _

/-- `np.unique` is sorted, duplicate-free, and has the same members as its
input. -/
theorem uniqueSorted_spec (xs : List String) :
    (uniqueSorted xs).Sorted (fun a b => a ≤ b) ∧ (uniqueSorted xs).Nodup ∧
    ∀ a, a ∈ uniqueSorted xs ↔ a ∈ xs := by
  refine ⟨List.sorted_insertionSort _ _, ?_, fun a => ?_⟩
  · exact (List.perm_insertionSort _ _).nodup_iff.mpr xs.nodup_dedup
  · exact (List.perm_insertionSort _ _).mem_iff.trans (List.mem_dedup)

/-- C7: aggregation emits one transformer label per distinct transformer
name, the collection sorted by ascending name; each group's load indices are
in ascending original load order and its joined name string lists the loads
in that order; in particular loads `[L3, L1, L2]` on one transformer yield
`load_names = "L3;L1;L2"`. -/
theorem make_xfmr_labels_grouping (labels : List LoadLabel) :
    ((make_xfmr_labels labels).map (fun t => t.transformer_name)).Sorted
        (fun a b => a ≤ b) ∧
    ((make_xfmr_labels labels).map (fun t => t.transformer_name)).Nodup ∧
    (∀ n, n ∈ (make_xfmr_labels labels).map (fun t => t.transformer_name) ↔
      n ∈ labels.map (fun lb => lb.transformer_name)) ∧
    (∀ t ∈ make_xfmr_labels labels,
      (whereEq (labels.map (fun lb => lb.transformer_name))
          t.transformer_name).Pairwise (· < ·) ∧
      t.load_names = String.intercalate ";"
        ((whereEq (labels.map (fun lb => lb.transformer_name))
            t.transformer_name).map
          (fun i => (labels.getD i default).load_name)) ∧
      t.load_indices = String.intercalate ";"
        ((whereEq (labels.map (fun lb => lb.transformer_name))
            t.transformer_name).map (fun i => toString i))) ∧
    make_xfmr_labels
        [⟨"L3", 0, "s", "T"⟩, ⟨"L1", 0, "s", "T"⟩, ⟨"L2", 0, "s", "T"⟩] =
      [⟨"0;1;2", "L3;L1;L2", 0, "T"⟩] := by
  have hnames : (make_xfmr_labels labels).map (fun t => t.transformer_name) =
      uniqueSorted (labels.map (fun lb => lb.transformer_name)) := by
    simp [make_xfmr_labels, xfmr_groups, List.map_map, Function.comp_def]
  obtain ⟨hsort, hnodup, hmem⟩ :=
    uniqueSorted_spec (labels.map (fun lb => lb.transformer_name))
  refine ⟨hnames ▸ hsort, hnames ▸ hnodup, fun n => by rw [hnames]; exact hmem n,
    fun t ht => ?_, by decide⟩
  simp only [make_xfmr_labels, xfmr_groups, List.map_map, List.mem_map,
    Function.comp] at ht
  obtain ⟨name, hn, rfl⟩ := ht
  exact ⟨whereEq_pairwise_lt _ _, rfl, rfl⟩

/-- C7 witness: instantiation of the grouping theorem at a two-transformer
label frame with interleaved groups. -/
theorem make_xfmr_labels_grouping_witness :
    ((make_xfmr_labels
        [⟨"La", 0, "s", "T2"⟩, ⟨"Lb", 1, "s", "T1"⟩, ⟨"Lc", 0, "s", "T2"⟩]).map
      (fun t => t.transformer_name)).Sorted (fun a b => a ≤ b) :=
  (make_xfmr_labels_grouping
    [⟨"La", 0, "s", "T2"⟩, ⟨"Lb", 1, "s", "T1"⟩, ⟨"Lc", 0, "s", "T2"⟩]).1

/-- C10: the index groups of the aggregation partition the load indices:
every load index lies in exactly one group, each group is duplicate-free, and
each group is nonempty (so taking the phase of a group's first member cannot
fail). -/
theorem xfmr_groups_partition (labels : List LoadLabel) :
    (∀ i, i < labels.length →
      ((xfmr_groups labels).countP (fun g => decide (i ∈ g.2))) = 1) ∧
    (∀ g ∈ xfmr_groups labels, g.2 ≠ [] ∧ g.2.Nodup) := by
  constructor
  · intro i hi
    have hlen : i < (labels.map (fun lb => lb.transformer_name)).length := by
      simpa using hi
    set names := labels.map (fun lb => lb.transformer_name) with hnames
    have hv : names.getD i "" = names[i] := by
      rw [List.getD_eq_getElem?_getD, List.getElem?_eq_getElem hlen]
      rfl
    rw [xfmr_groups, List.countP_map]
    have hcongr : ∀ a ∈ uniqueSorted names,
        (((fun g : String × List ℕ => decide (i ∈ g.2)) ∘
            (fun name => (name, whereEq names name))) a = true ↔
          (a == names[i]) = true) := by
      intro a _
      simp only [Function.comp_apply, decide_eq_true_eq, beq_iff_eq,
        mem_whereEq_iff, hv]
      constructor
      · rintro ⟨-, h⟩
        exact h.symm
      · intro h
        exact ⟨hlen, h.symm⟩
    rw [List.countP_congr hcongr]
    have hmem2 : names[i] ∈ uniqueSorted names :=
      ((uniqueSorted_spec names).2.2 _).mpr (List.getElem_mem hlen)
    have hnodup : (uniqueSorted names).Nodup := (uniqueSorted_spec names).2.1
    have hcount : (uniqueSorted names).countP (fun a => a == names[i]) =
        (uniqueSorted names).count (names[i]) := rfl
    rw [hcount]
    exact List.count_eq_one_of_mem hnodup hmem2
  · intro g hg
    rw [xfmr_groups, List.mem_map] at hg
    obtain ⟨name, hn, hge⟩ := hg
    subst hge
    refine ⟨?_, (List.nodup_range _).filter _⟩
    have hmem : name ∈ labels.map (fun lb => lb.transformer_name) :=
      ((uniqueSorted_spec _).2.2 name).mp hn
    obtain ⟨j, hje⟩ := List.mem_iff_get.mp hmem
    apply List.ne_nil_of_mem (a := (j : ℕ))
    rw [mem_whereEq_iff]
    refine ⟨j.isLt, ?_⟩
    rw [List.getD_eq_getElem?_getD, List.getElem?_eq_getElem j.isLt]
    simpa [List.get_eq_getElem] using hje

/-- C10 witness: instantiation of the partition theorem at a concrete frame;
load index 0 lies in exactly one group. -/
theorem xfmr_groups_partition_witness :
    ((xfmr_groups [⟨"La", 0, "s", "T2"⟩, ⟨"Lb", 1, "s", "T1"⟩]).countP
      (fun g => decide (0 ∈ g.2))) = 1 :=
  (xfmr_groups_partition [⟨"La", 0, "s", "T2"⟩, ⟨"Lb", 1, "s", "T1"⟩]).1 0
    (by decide)

/-! ### Profile synthesis (`profile_factory.py`), floats modelled by ℚ -/

/-- The base-point index of the segment `scipy.interpolate.interp1d(...,
kind="linear", fill_value="extrapolate")` uses at abscissa `x`, for sample
abscissae `0, 1, …, H-1`: `searchsorted` (which returns `⌈x⌉` for
`0 ≤ x ≤ H-1`) clipped to `[1, H-1]`, minus one.  Positions beyond `H-1`
are clipped onto the last segment, which linearly extrapolates it. -/
def interpSegment (H : ℕ) (x : ℚ) : ℕ :=
  min (max (⌈x⌉.toNat) 1) (H - 1) - 1

/-- The piecewise-linear interpolant of `interp1d` over the integer index
domain, evaluated at `x`. -/
def interpAt (base : List ℚ) (x : ℚ) : ℚ :=
  let lo := interpSegment base.length x
  let y0 := base.getD lo 0
  let y1 := base.getD (lo + 1) 0
  y0 + (x - (lo : ℚ)) * (y1 - y0)

/-- The upsampling step of `_profile_generator`: the linear interpolant of
the base profile evaluated at `np.arange(start=0, stop=len(temp), step=0.25)`,
which is the `4 * H` abscissae `k / 4` for `k < 4 * H`. -/
def upsample (base : List ℚ) : List ℚ :=
  (List.range (4 * base.length)).map (fun (k : ℕ) => interpAt base ((k : ℚ) / 4))

/-- C2: on an 8760-point base profile the upsampler returns exactly 35040
points; the first 35037 sit at positions `0, 1/4, 2/4, …` not exceeding
index 8759 and are linear interpolation between base points inside the
domain, while the last 3 positions exceed index 8759 and continue the last
linear segment by extrapolation. -/
theorem upsample_ckt5 (base : List ℚ) (h : base.length = 8760) :
    (upsample base).length = 35040 ∧
    (∀ (k : ℕ) (hk : k < (upsample base).length),
      (upsample base).get ⟨k, hk⟩ = interpAt base ((k : ℚ) / 4)) ∧
    (∀ k : ℕ, k < 35037 →
      (k : ℚ) / 4 ≤ 8759 ∧ interpSegment 8760 ((k : ℚ) / 4) + 1 ≤ 8759) ∧
    (∀ k : ℕ, 35037 ≤ k → k < 35040 →
      8759 < (k : ℚ) / 4 ∧
      interpAt base ((k : ℚ) / 4) =
        base.getD 8758 0 +
          ((k : ℚ) / 4 - 8758) * (base.getD 8759 0 - base.getD 8758 0)) := by
  have hlen : (upsample base).length = 35040 := by
    rw [upsample, List.length_map, List.length_range, h]
  refine ⟨hlen, ?_, ?_, ?_⟩
  · intro k hk
    rw [List.get_eq_getElem]
    simp only [upsample, List.getElem_map, List.getElem_range]
  · intro k hk
    constructor
    · rw [div_le_iff₀ (by norm_num : (0 : ℚ) < 4)]
      have hkq : (k : ℚ) ≤ 35036 := by exact_mod_cast Nat.le_of_lt_succ hk
      linarith
    · have hmin : min (max (⌈(k : ℚ) / 4⌉.toNat) 1) (8760 - 1) ≤ 8759 :=
        Nat.min_le_right _ _
      unfold interpSegment
      omega
  · intro k hk1 hk2
    have hqlt : (8759 : ℚ) < (k : ℚ) / 4 := by
      rw [lt_div_iff₀ (by norm_num : (0 : ℚ) < 4)]
      have hkq : (35037 : ℚ) ≤ (k : ℚ) := by exact_mod_cast hk1
      linarith
    have hqle : (k : ℚ) / 4 ≤ 8760 := by
      rw [div_le_iff₀ (by norm_num : (0 : ℚ) < 4)]
      have hkq : (k : ℚ) ≤ 35039 := by exact_mod_cast Nat.le_of_lt_succ hk2
      linarith
    have hceil : ⌈(k : ℚ) / 4⌉ = 8760 := by
      rw [Int.ceil_eq_iff]
      constructor
      · push_cast
        linarith
      · push_cast
        linarith
    have hseg : interpSegment 8760 ((k : ℚ) / 4) = 8758 := by
      rw [interpSegment, hceil]
      rfl
    refine ⟨hqlt, ?_⟩
    simp only [interpAt, h, hseg]
    norm_num

/-- C2 witness: the theorem applied to a concrete base profile of length
8760. -/
theorem upsample_ckt5_witness :
    (List.replicate 8760 (0 : ℚ)).length = 8760 ∧
    (upsample (List.replicate 8760 (0 : ℚ))).length = 35040 :=
  ⟨List.length_replicate 8760 0,
    (upsample_ckt5 (List.replicate 8760 (0 : ℚ)) (List.length_replicate 8760 0)).1⟩

/-- `np.interp(x, xp=(lo, hi), fp=(0, 1))` at a single point, following
numpy's `arr_interp`/`binary_search_with_guess`: a point at or above the
right endpoint returns `fp[1] = 1` (the bisection lands on the last sample
index), a point at or below the left endpoint returns `fp[0] = 0`, and an
interior point returns the linear interpolant. -/
def npInterp01 (lo hi x : ℚ) : ℚ :=
  if hi ≤ x then 1
  else if x ≤ lo then 0
  else (x - lo) / (hi - lo)

/-- The rescaling step of `_profile_generator`:
`np.interp(x=new_profile, xp=(new_profile.min(), new_profile.max()), fp=(0, 1))`. -/
def normalize (xs : List ℚ) : List ℚ :=
  xs.map (npInterp01 (xs.min?.getD 0) (xs.max?.getD 0))

/-- `xs.min? = some a` exactly when `a` is a member and a lower bound. -/
theorem min?_eq_some_iff_rat {xs : List ℚ} {a : ℚ} :
    xs.min? = some a ↔ a ∈ xs ∧ ∀ b ∈ xs, a ≤ b := by
  haveI : Std.Antisymm ((· : ℚ) ≤ ·) := ⟨fun h1 h2 => le_antisymm h1 h2⟩
  exact List.min?_eq_some_iff (fun a => le_refl a) (fun a b => min_choice a b)
    (fun a b c => le_min_iff)

/-- `xs.max? = some a` exactly when `a` is a member and an upper bound. -/
theorem max?_eq_some_iff_rat {xs : List ℚ} {a : ℚ} :
    xs.max? = some a ↔ a ∈ xs ∧ ∀ b ∈ xs, b ≤ a := by
  haveI : Std.Antisymm ((· : ℚ) ≤ ·) := ⟨fun h1 h2 => le_antisymm h1 h2⟩
  exact List.max?_eq_some_iff (fun a => le_refl a) (fun a b => max_choice a b)
    (fun a b c => max_le_iff)

/-- C4: on a draw whose noisy series is not constant, every output value is
`(x - lo) / (hi - lo)`, and the rescaled series attains minimum exactly 0 and
maximum exactly 1. -/
theorem normalize_nondegenerate_bounds (xs : List ℚ) (lo hi : ℚ)
    (hlo : xs.min? = some lo) (hhi : xs.max? = some hi) (hne : hi ≠ lo) :
    (∀ x ∈ xs, npInterp01 lo hi x = (x - lo) / (hi - lo)) ∧
    (normalize xs).min? = some 0 ∧ (normalize xs).max? = some 1 := by
  obtain ⟨hlomem, hlole⟩ := min?_eq_some_iff_rat.mp hlo
  obtain ⟨hhimem, hhile⟩ := max?_eq_some_iff_rat.mp hhi
  have hlh : lo ≤ hi := hhile lo hlomem
  have hlt : lo < hi := lt_of_le_of_ne hlh (fun hEq => hne hEq.symm)
  have hpos : (0 : ℚ) < hi - lo := sub_pos.mpr hlt
  have hpt : ∀ x ∈ xs, npInterp01 lo hi x = (x - lo) / (hi - lo) := by
    intro x hx
    rw [npInterp01]
    by_cases h1 : hi ≤ x
    · have hxhi : x = hi := le_antisymm (hhile x hx) h1
      rw [if_pos h1, hxhi, div_self (ne_of_gt hpos)]
    · rw [if_neg h1]
      by_cases h2 : x ≤ lo
      · have hxlo : x = lo := le_antisymm h2 (hlole x hx)
        rw [if_pos h2, hxlo, sub_self, zero_div]
      · rw [if_neg h2]
  have hnorm : normalize xs = xs.map (npInterp01 lo hi) := by
    rw [normalize, hlo, hhi]
    rfl
  refine ⟨hpt, ?_, ?_⟩
  · rw [hnorm, min?_eq_some_iff_rat]
    constructor
    · rw [List.mem_map]
      exact ⟨lo, hlomem, by rw [hpt lo hlomem, sub_self, zero_div]⟩
    · intro b hb
      rw [List.mem_map] at hb
      obtain ⟨x, hx, rfl⟩ := hb
      rw [hpt x hx]
      exact div_nonneg (sub_nonneg.mpr (hlole x hx)) (le_of_lt hpos)
  · rw [hnorm, max?_eq_some_iff_rat]
    constructor
    · rw [List.mem_map]
      exact ⟨hi, hhimem, by rw [hpt hi hhimem, div_self (ne_of_gt hpos)]⟩
    · intro b hb
      rw [List.mem_map] at hb
      obtain ⟨x, hx, rfl⟩ := hb
      rw [hpt x hx, div_le_one hpos]
      exact sub_le_sub_right (hhile x hx) lo

/-- C4 witness: the bounds theorem applied to the two-point series `[0, 1]`. -/
theorem normalize_nondegenerate_bounds_witness :
    (normalize [(0 : ℚ), 1]).min? = some 0 ∧ (normalize [(0 : ℚ), 1]).max? = some 1 :=
  (normalize_nondegenerate_bounds [(0 : ℚ), 1] 0 1 (by decide) (by decide)
    (by norm_num)).2

/-- C5 (amended): on a draw whose noisy series is constant (`hi == lo`), the
rescaling returns the constant series 1.0 — numpy's `interp` sends every
point at the collapsed right endpoint to `fp[1] = 1` — not the constant 0.5
the specification documents. -/
theorem normalize_degenerate (xs : List ℚ) (c : ℚ)
    (hlo : xs.min? = some c) (hhi : xs.max? = some c) :
    normalize xs = List.replicate xs.length 1 := by
  rw [normalize, hlo, hhi]
  rw [List.eq_replicate_iff]
  refine ⟨by simp, ?_⟩
  intro b hb
  rw [List.mem_map] at hb
  obtain ⟨x, hx, rfl⟩ := hb
  have hxc : x = c :=
    le_antisymm ((max?_eq_some_iff_rat.mp hhi).2 x hx)
      ((min?_eq_some_iff_rat.mp hlo).2 x hx)
  simp [npInterp01, hxc]

/-- C5 witness: the degenerate constant series `[1/2, 1/2]` rescales to all
ones. -/
theorem normalize_degenerate_witness :
    normalize (List.replicate 2 (1/2 : ℚ)) =
      List.replicate (List.replicate 2 (1/2 : ℚ)).length 1 :=
  normalize_degenerate (List.replicate 2 (1/2 : ℚ)) (1/2)
    (List.min?_replicate_of_pos (min_self _) (by norm_num))
    (List.max?_replicate_of_pos (max_self _) (by norm_num))

/-- C5 counterexample: a constant noisy series of length 35040 (the target
length) is the degenerate case `hi == lo`, yet the rescaled output is not the
constant series 0.5 claimed by the specification (it is constant 1.0). -/
theorem normalize_degenerate_counterexample :
    (List.replicate 35040 (1/2 : ℚ)).min? = (List.replicate 35040 (1/2 : ℚ)).max? ∧
    normalize (List.replicate 35040 (1/2 : ℚ)) ≠ List.replicate 35040 (1/2 : ℚ) := by
  have hmin : (List.replicate 35040 (1/2 : ℚ)).min? = some (1/2) :=
    List.min?_replicate_of_pos (min_self _) (by norm_num)
  have hmax : (List.replicate 35040 (1/2 : ℚ)).max? = some (1/2) :=
    List.max?_replicate_of_pos (max_self _) (by norm_num)
  refine ⟨hmin.trans hmax.symm, fun hEq => ?_⟩
  have h1 : (normalize (List.replicate 35040 (1/2 : ℚ))).head? = some 1 := by
    rw [normalize, hmin, hmax]
    rw [List.map_replicate, List.head?_replicate]
    norm_num [npInterp01]
  rw [hEq] at h1
  rw [List.head?_replicate] at h1
  norm_num at h1

/-! ### `make_default_gaussian_profiles`: one draw per load from one shared
random stream -/

/-- One load as iterated by `make_default_gaussian_profiles`: the element
name (the part of the object name after `Load.`) and the name of its yearly
base loadshape as queried from the engine. -/
structure LoadEntry where
  name : String
  yearly : String
deriving DecidableEq, Repr

/-- The `n` noise values the shared generator `rng.normal(loc=0, scale=0.1,
size=n)` hands out when the stream has already been consumed up to position
`off`. -/
def noiseSegment (stream : ℕ → ℚ) (off n : ℕ) : List ℚ :=
  (List.range n).map (fun i => stream (off + i))

/-- One draw of `_profile_generator`: the upsampled base plus the noise
vector, rescaled to `[0, 1]`. -/
def gaussian_draw (base noise : List ℚ) : List ℚ :=
  normalize (List.zipWith (fun b e => b + e) base noise)

/-- The loop of `make_default_gaussian_profiles` with the shared stream
already consumed up to `off`: each load pulls one draw from the generator of
its yearly loadshape, and all generators consume the single shared stream in
load-iteration order. -/
def make_gaussian_profiles_from (shapes : String → List ℚ) (stream : ℕ → ℚ) :
    List LoadEntry → ℕ → List (String × List ℚ)
  | [], _ => []
  | l :: rest, off =>
    (l.name,
      gaussian_draw (upsample (shapes l.yearly))
        (noiseSegment stream off (upsample (shapes l.yearly)).length)) ::
      make_gaussian_profiles_from shapes stream rest
        (off + (upsample (shapes l.yearly)).length)

/-- `make_default_gaussian_profiles`: the synthetic profile of every load, in
load-iteration order, drawn from a stream seeded once per run. -/
def make_default_gaussian_profiles (shapes : String → List ℚ)
    (loads : List LoadEntry) (stream : ℕ → ℚ) : List (String × List ℚ) :=
  make_gaussian_profiles_from shapes stream loads 0

/-- The number of stream values the whole run consumes. -/
def totalNoise (shapes : String → List ℚ) : List LoadEntry → ℕ
  | [] => 0
  | l :: rest => (upsample (shapes l.yearly)).length + totalNoise shapes rest

/-- A two-point base shape shared by every loadshape name in the C3 example
runs. -/
def exShapes : String → List ℚ := fun _ => [0, 0]

/-- The example stream for the C3 order-sensitivity runs: value 1 at
position 1, value 0 elsewhere. -/
def exStream : ℕ → ℚ := fun n => if n = 1 then 1 else 0

/-- The interpolant of the all-zero two-point base is zero everywhere. -/
theorem interpAt_zero_base (x : ℚ) : interpAt [0, 0] x = 0 := by
  have hD : ∀ j, ([0, 0] : List ℚ).getD j 0 = 0 := by
    intro j
    match j with
    | 0 => rfl
    | 1 => rfl
    | n + 2 => rfl
  simp only [interpAt, hD]
  ring

/-- Upsampling the all-zero two-point base gives eight zero samples. -/
theorem upsample_zero_base : upsample [0, 0] = List.replicate 8 0 := by
  rw [upsample, List.eq_replicate_iff]
  refine ⟨by simp, ?_⟩
  intro b hb
  rw [List.mem_map] at hb
  obtain ⟨k, hk, rfl⟩ := hb
  exact interpAt_zero_base _

/-- The value of the two example draws: the run where load `l1` comes first
reads the stream spike at position 1, the run where it comes second reads
only zeros and hits the degenerate all-ones rescaling. -/
theorem order_sensitivity_example :
    (make_default_gaussian_profiles exShapes
        [⟨"l1", "Residential"⟩, ⟨"l2", "Residential"⟩] exStream).getD 0 ("", []) =
      ("l1", ([0, 1, 0, 0, 0, 0, 0, 0] : List ℚ)) ∧
    (make_default_gaussian_profiles exShapes
        [⟨"l2", "Residential"⟩, ⟨"l1", "Residential"⟩] exStream).getD 1 ("", []) =
      ("l1", List.replicate 8 (1 : ℚ)) := by
  have hup : upsample (exShapes "Residential") = List.replicate 8 0 := upsample_zero_base
  have hn1 : noiseSegment exStream 0 8 = [0, 1, 0, 0, 0, 0, 0, 0] := rfl
  have hn2 : noiseSegment exStream (0 + 8) 8 = List.replicate 8 0 := rfl
  have hd1 : List.zipWith (fun b e => b + e) (List.replicate 8 (0 : ℚ))
      [0, 1, 0, 0, 0, 0, 0, 0] = [0, 1, 0, 0, 0, 0, 0, 0] := by
    simp [List.replicate, zero_add]
  have hd2 : List.zipWith (fun b e => b + e) (List.replicate 8 (0 : ℚ))
      (List.replicate 8 (0 : ℚ)) = List.replicate 8 (0 : ℚ) := by
    simp [List.replicate, zero_add]
  have hmin1 : ([0, 1, 0, 0, 0, 0, 0, 0] : List ℚ).min? = some 0 := by
    rw [min?_eq_some_iff_rat]
    refine ⟨by simp, ?_⟩
    intro b hb
    fin_cases hb <;> norm_num
  have hmax1 : ([0, 1, 0, 0, 0, 0, 0, 0] : List ℚ).max? = some 1 := by
    rw [max?_eq_some_iff_rat]
    refine ⟨by simp, ?_⟩
    intro b hb
    fin_cases hb <;> norm_num
  have hv1 : normalize [0, 1, 0, 0, 0, 0, 0, 0] = [0, 1, 0, 0, 0, 0, 0, 0] := by
    rw [normalize, hmin1, hmax1]
    norm_num [npInterp01]
  have hmin2 : (List.replicate 8 (0 : ℚ)).min? = some 0 :=
    List.min?_replicate_of_pos (min_self _) (by norm_num)
  have hmax2 : (List.replicate 8 (0 : ℚ)).max? = some 0 :=
    List.max?_replicate_of_pos (max_self _) (by norm_num)
  have hv2 : normalize (List.replicate 8 (0 : ℚ)) = List.replicate 8 (1 : ℚ) := by
    rw [normalize, hmin2, hmax2, List.map_replicate]
    norm_num [npInterp01]
  constructor
  · simp only [make_default_gaussian_profiles, make_gaussian_profiles_from,
      gaussian_draw, hup, List.length_replicate]
    rw [hn1, hd1, hv1]
    rfl
  · simp only [make_default_gaussian_profiles, make_gaussian_profiles_from,
      gaussian_draw, hup, List.length_replicate]
    rw [hn2, hd2, hv2]
    rfl

/-- The profile loop only reads the stream positions from the running offset
up to the total it consumes. -/
theorem make_gaussian_profiles_from_congr (shapes : String → List ℚ)
    (s1 s2 : ℕ → ℚ) :
    ∀ (loads : List LoadEntry) (off : ℕ),
      (∀ n, off ≤ n → n < off + totalNoise shapes loads → s1 n = s2 n) →
      make_gaussian_profiles_from shapes s1 loads off =
        make_gaussian_profiles_from shapes s2 loads off := by
  intro loads
  induction loads with
  | nil => intro off hagree; rfl
  | cons l rest ih =>
    intro off hagree
    have hseg : noiseSegment s1 off (upsample (shapes l.yearly)).length =
        noiseSegment s2 off (upsample (shapes l.yearly)).length := by
      rw [noiseSegment, noiseSegment]
      apply List.map_congr_left
      intro i hi
      rw [List.mem_range] at hi
      refine hagree (off + i) (Nat.le_add_right off i) ?_
      have htot : (upsample (shapes l.yearly)).length ≤
          totalNoise shapes (l :: rest) := Nat.le_add_right _ _
      omega
    have hrest := ih (off + (upsample (shapes l.yearly)).length)
      (fun n h1 h2 => hagree n
        (le_trans (Nat.le_add_right off _) h1)
        (by
          have : totalNoise shapes (l :: rest) =
              (upsample (shapes l.yearly)).length + totalNoise shapes rest := rfl
          omega))
    rw [make_gaussian_profiles_from, make_gaussian_profiles_from, hseg, hrest]

/-- C3: two runs over the same loads in the same order whose seeded streams
agree on the consumed prefix produce identical profile values; and for the
concrete example runs that differ only in load-iteration order, the profile
produced for load `l1` differs between the two runs. -/
theorem gaussian_profiles_deterministic_and_order_sensitive :
    (∀ (shapes : String → List ℚ) (loads : List LoadEntry) (s1 s2 : ℕ → ℚ),
      (∀ n, n < totalNoise shapes loads → s1 n = s2 n) →
      make_default_gaussian_profiles shapes loads s1 =
        make_default_gaussian_profiles shapes loads s2) ∧
    (make_default_gaussian_profiles exShapes
        [⟨"l1", "Residential"⟩, ⟨"l2", "Residential"⟩] exStream).getD 0 ("", []) ≠
      (make_default_gaussian_profiles exShapes
        [⟨"l2", "Residential"⟩, ⟨"l1", "Residential"⟩] exStream).getD 1 ("", []) := by
  constructor
  · intro shapes loads s1 s2 hagree
    exact make_gaussian_profiles_from_congr shapes s1 s2 loads 0
      (fun n h1 h2 => hagree n (by omega))
  · rw [order_sensitivity_example.1, order_sensitivity_example.2]
    norm_num [List.replicate]

/-- C3 witness: two runs with streams that agree on every consumed position
(but disagree later) produce identical outputs. -/
theorem gaussian_profiles_deterministic_witness :
    make_default_gaussian_profiles exShapes
        [⟨"l1", "Residential"⟩, ⟨"l2", "Residential"⟩] exStream =
      make_default_gaussian_profiles exShapes
        [⟨"l1", "Residential"⟩, ⟨"l2", "Residential"⟩]
        (fun n => if n < 16 then exStream n else 99) :=
  gaussian_profiles_deterministic_and_order_sensitive.1 exShapes
    [⟨"l1", "Residential"⟩, ⟨"l2", "Residential"⟩] exStream
    (fun n => if n < 16 then exStream n else 99)
    (fun n hn => by
      have h16 : n < 16 := hn
      simp [h16])

end PhaseSvd
